import Mathlib

/-!
Shallow embedding of the `nes-utils` repository (crates `ines-parser` and
`lemonade`) and proofs about it.

Bytes are modelled as `Nat` (every value fed in by a parse is a list element
read from the input, so no arithmetic ever overflows a `u8`/`usize`); byte
buffers are `List Nat`.  Rust slice indexing and range slicing panic when out
of bounds, so they are modelled as `Option`-returning operations, and every
fallible Rust function returns an `Outcome` that distinguishes `Ok`, a typed
`Err`, and a panic.
-/

namespace NesUtils

/-- Rust slice indexing `data[i]`: `none` models the out-of-bounds panic. -/
def index (data : List Nat) (i : Nat) : Option Nat := data[i]?

/-- Rust range slicing `&data[a..b]`: panics (`none`) unless `a ≤ b ∧ b ≤ data.len()`. -/
def slice (data : List Nat) (a b : Nat) : Option (List Nat) :=
  if a ≤ b ∧ b ≤ data.length then some ((data.drop a).take (b - a)) else none

/-- `const MAGIC_BYTES: [u8; 4] = [0x4E, 0x45, 0x53, 0x1A];` -/
def MAGIC_BYTES : List Nat := [0x4E, 0x45, 0x53, 0x1A]

/-- `const HEADER_SIZE: usize = 16;` -/
def HEADER_SIZE : Nat := 16

/-- `const TRAINER_SIZE: usize = 512;` -/
def TRAINER_SIZE : Nat := 512

/-- `const PRG_ROM_CHUNK_SIZE: usize = 16_384;` -/
def PRG_ROM_CHUNK_SIZE : Nat := 16384

/-- `const CHR_ROM_CHUNK_SIZE: usize = 8192;` -/
def CHR_ROM_CHUNK_SIZE : Nat := 8192

/-- `enum VramLayout` from `ines-parser`. -/
inductive VramLayout
  | HorizontalMirroring
  | VerticalMirroring
  | FourScreen
deriving DecidableEq, Repr

/-- `struct Header` from `ines-parser`. -/
structure Header where
  prg_rom_size : Nat
  chr_rom_size : Nat
  vram_layout : VramLayout
  has_persistent_memory : Bool
  has_trainer : Bool
  mapper_number : Nat
deriving DecidableEq, Repr

/-- `enum Error` from `ines-parser`.  `Io` carries no payload in the model;
`MagicBytesMismatch` carries the 4 bytes actually read. -/
inductive Error
  | Io
  | MagicBytesMismatch (bytes : List Nat)
  | TryFromSlice
deriving DecidableEq, Repr

/-- `struct Ines` from `ines-parser`; `Cow` regions are the byte lists they view. -/
structure Ines where
  header : Header
  trainer : Option (List Nat)
  prg_rom : List Nat
  chr_rom : Option (List Nat)
deriving DecidableEq, Repr

/-- Result of calling a fallible Rust function: `Ok`, a typed `Err`, or a panic. -/
inductive Outcome (α : Type)
  | ok (val : α)
  | err (e : Error)
  | panic
deriving DecidableEq, Repr

/-- `fn bit_at(num: u8, idx: u8) -> bool { (num >> idx) & 1 == 1 }` -/
def bit_at (num idx : Nat) : Bool := (num >>> idx) &&& 1 == 1

/-- `fn parse_header(header_data: &[u8]) -> Result<Header>`.
The `header_data[0..4]` slice panics when the input is shorter than 4 bytes;
`.try_into()` to `[u8; 4]` fails with `TryFromSlice` when the slice is not
exactly 4 bytes long (never reached, since the slice has length 4);
the individual byte accesses `header_data[4]`..`header_data[7]` panic when
out of range. -/
def parse_header (header_data : List Nat) : Outcome Header :=
  match slice header_data 0 4 with
  | none => .panic
  | some magic_slice =>
    if magic_slice.length ≠ 4 then .err .TryFromSlice
    else
      let magic_bytes := magic_slice
      if magic_bytes ≠ MAGIC_BYTES then .err (.MagicBytesMismatch magic_bytes)
      else
        match index header_data 4, index header_data 5,
              index header_data 6, index header_data 7 with
        | some num_prg_rom_chunk, some num_chr_rom_chunk, some byte6, some byte7 =>
          let prg_rom_size := num_prg_rom_chunk * PRG_ROM_CHUNK_SIZE
          let chr_rom_size := num_chr_rom_chunk * CHR_ROM_CHUNK_SIZE
          let four_screen_vram := bit_at byte6 3
          let vram_layout :=
            if four_screen_vram then VramLayout.FourScreen
            else if bit_at byte6 0 then VramLayout.VerticalMirroring
            else VramLayout.HorizontalMirroring
          let has_persistent_memory := bit_at byte6 1
          let has_trainer := bit_at byte6 2
          let mapper_number := (byte7 &&& 0x0F) ||| (byte6 >>> 4)
          .ok { prg_rom_size, chr_rom_size, vram_layout, has_persistent_memory,
                has_trainer, mapper_number }
        | _, _, _, _ => .panic

/-- `Ines::from_bytes(data: &[u8]) -> Result<Ines>`.  All region accesses are
Rust range slices, which panic when the buffer is too short. -/
def from_bytes (data : List Nat) : Outcome Ines :=
  match parse_header data with
  | .panic => .panic
  | .err e => .err e
  | .ok header =>
    let trainer_step : Option (Nat × Option (List Nat)) :=
      if header.has_trainer then
        match slice data HEADER_SIZE (HEADER_SIZE + TRAINER_SIZE) with
        | none => none
        | some trainer => some (HEADER_SIZE + TRAINER_SIZE, some trainer)
      else some (HEADER_SIZE, none)
    match trainer_step with
    | none => .panic
    | some (after_position, trainer) =>
      match slice data after_position (after_position + header.prg_rom_size) with
      | none => .panic
      | some prg_rom =>
        if header.chr_rom_size > 0 then
          let after_prg_rom := after_position + header.prg_rom_size
          match slice data after_prg_rom (after_prg_rom + header.chr_rom_size) with
          | none => .panic
          | some chr_rom => .ok ⟨header, trainer, prg_rom, some chr_rom⟩
        else .ok ⟨header, trainer, prg_rom, none⟩

/-- `Read::read_exact` on an in-memory stream positioned at `pos`: returns the
next `n` bytes and the new position, or an `Io` error (`UnexpectedEof`) when
fewer than `n` bytes remain. -/
def read_exact (stream : List Nat) (pos n : Nat) : Except Error (List Nat × Nat) :=
  if pos + n ≤ stream.length then .ok ((stream.drop pos).take n, pos + n)
  else .error .Io

/-- `Ines::from_reader<T: Read>(input_stream: &mut T) -> Result<Ines>`, with the
stream modelled as an in-memory byte list read from position 0. -/
def from_reader (stream : List Nat) : Outcome Ines :=
  match read_exact stream 0 HEADER_SIZE with
  | .error e => .err e
  | .ok (header_bytes, pos) =>
    match parse_header header_bytes with
    | .panic => .panic
    | .err e => .err e
    | .ok header =>
      let trainer_step : Except Error (Option (List Nat) × Nat) :=
        if header.has_trainer then
          match read_exact stream pos TRAINER_SIZE with
          | .error e => .error e
          | .ok (trainer, pos') => .ok (some trainer, pos')
        else .ok (none, pos)
      match trainer_step with
      | .error e => .err e
      | .ok (trainer, pos') =>
        match read_exact stream pos' header.prg_rom_size with
        | .error e => .err e
        | .ok (prg_rom, pos'') =>
          if header.chr_rom_size > 0 then
            match read_exact stream pos'' header.chr_rom_size with
            | .error e => .err e
            | .ok (chr_rom, _) => .ok ⟨header, trainer, prg_rom, some chr_rom⟩
          else .ok ⟨header, trainer, prg_rom, none⟩

/-! ## The `lemonade` crate -/

/-- `const SPRITE_SIZE: usize = 16;` -/
def SPRITE_SIZE : Nat := 16

/-- `const SPRITE_WIDTH_HEIGHT: usize = 8;` -/
def SPRITE_WIDTH_HEIGHT : Nat := 8

/-- `struct Colour { r: u8, g: u8, b: u8 }` -/
structure Colour where
  r : Nat
  g : Nat
  b : Nat
deriving DecidableEq, Repr

/-- `#[derive(Default)]` on `Colour`: all components zero. -/
instance : Inhabited Colour := ⟨⟨0, 0, 0⟩⟩

/-- `struct ColourPalette { background: Colour, colours: [Colour; 3] }`;
the 3-element array is modelled as a list indexed with a default
(the source only ever indexes positions 0, 1, 2). -/
structure ColourPalette where
  background : Colour
  colours : List Colour
deriving DecidableEq, Repr

/-- `ColourPalette::CLASSIC_MARIO`. -/
def CLASSIC_MARIO : ColourPalette :=
  ⟨⟨0, 0, 0⟩, [⟨189, 8, 8⟩, ⟨217, 167, 57⟩, ⟨126, 153, 83⟩]⟩

/-- Structural helper for `chunks_exact`: the fuel only bounds the recursion
depth (each step consumes at least one byte, so `data.length` fuel always
suffices) and does not change the result. -/
def chunks_exact_fuel : Nat → Nat → List Nat → List (List Nat)
  | 0, _, _ => []
  | fuel + 1, n, data =>
    if 0 < n ∧ n ≤ data.length then
      data.take n :: chunks_exact_fuel fuel n (data.drop n)
    else []

/-- `slice::chunks_exact(n)`, as the list of complete `n`-byte chunks it
yields (trailing bytes that do not fill a chunk are not yielded). -/
def chunks_exact (n : Nat) (data : List Nat) : List (List Nat) :=
  chunks_exact_fuel data.length n data

/-- `struct Sprite<'a> { raw_sprite_data: &'a [u8] }` -/
structure Sprite where
  raw_sprite_data : List Nat
deriving DecidableEq, Repr

/-- `Sprite::buffer`. -/
def Sprite.buffer (s : Sprite) : List Nat := s.raw_sprite_data

/-- The closure body inside `Sprite::to_rgb`: decode one row from the
plane-A byte and the plane-B byte.  `colour_data` starts as all-default and
cell `i` is overwritten for each `i in 0..8`. -/
def decode_row (first_byte second_byte : Nat) (colour_palette : ColourPalette) :
    List Colour :=
  (List.range SPRITE_WIDTH_HEIGHT).map fun i =>
    if bit_at first_byte i && bit_at second_byte i then
      colour_palette.colours.getD 2 default
    else if bit_at second_byte i then
      colour_palette.colours.getD 1 default
    else if bit_at first_byte i then
      colour_palette.colours.getD 0 default
    else colour_palette.background

/-- `Sprite::to_rgb`.  The two `byte_chunks.next().unwrap()` calls take the
first two 8-byte chunks (panic, i.e. `none`, when absent); the final loop
performs eight `rgb_iterator.next().unwrap()` calls (panic when the zipped
and mapped iterator yields fewer than 8 rows). -/
def Sprite.to_rgb (s : Sprite) (colour_palette : ColourPalette) :
    Option (List (List Colour)) :=
  let byte_chunks := chunks_exact SPRITE_WIDTH_HEIGHT s.raw_sprite_data
  match byte_chunks[0]?, byte_chunks[1]? with
  | some first_chunk, some second_chunk =>
    let rows := (first_chunk.zip second_chunk).map
      fun p => decode_row p.1 p.2 colour_palette
    if SPRITE_WIDTH_HEIGHT ≤ rows.length then some (rows.take SPRITE_WIDTH_HEIGHT)
    else none
  | _, _ => none

/-- `struct Lemonade<'a> { sprites: ChunksExact<'a, u8> }`; the `ChunksExact`
iterator state is modelled as the list of complete 16-byte chunks it has yet
to yield (`ChunksExact::len` is the number of remaining complete chunks and
`next` pops the front one). -/
structure Lemonade where
  sprites : List (List Nat)
deriving DecidableEq, Repr

/-- `Lemonade::new(data: &[u8])`. -/
def Lemonade.new (data : List Nat) : Lemonade := ⟨chunks_exact SPRITE_SIZE data⟩

/-- `Lemonade::num_sprites`, i.e. `self.sprites.len()` on the `ChunksExact`
iterator: the number of complete chunks not yet yielded. -/
def Lemonade.num_sprites (l : Lemonade) : Nat := l.sprites.length

/-- `<Lemonade as Iterator>::next`: yields the next sprite and the advanced
iterator state (unchanged state when exhausted). -/
def Lemonade.next (l : Lemonade) : Option Sprite × Lemonade :=
  match l.sprites with
  | [] => (none, l)
  | raw_sprite_data :: rest => (some ⟨raw_sprite_data⟩, ⟨rest⟩)

/-- `k` successful `next()` calls in sequence; `none` when some call
returns `None` before `k` sprites were yielded. -/
def Lemonade.advance : Lemonade → Nat → Option Lemonade
  | l, 0 => some l
  | l, k + 1 =>
    match l.next with
    | (some _, l') => Lemonade.advance l' k
    | (none, _) => none

/-- The `i`-th item the iterator yields: skip `i` `next()` calls, then
return what the following `next()` produces. -/
def Lemonade.nth_yield : Lemonade → Nat → Option Sprite
  | l, 0 => l.next.1
  | l, i + 1 => Lemonade.nth_yield l.next.2 i

/-! ## Characterisation of the header parse -/

/-- The byte of `data` at position `i` (0 when out of range; only used at
positions that are known to be in range). -/
def byte (data : List Nat) (i : Nat) : Nat := data.getD i 0

/-- The header value `parse_header` produces on a buffer of at least 8 bytes
whose first 4 bytes match the signature. -/
def mk_header (data : List Nat) : Header where
  prg_rom_size := byte data 4 * PRG_ROM_CHUNK_SIZE
  chr_rom_size := byte data 5 * CHR_ROM_CHUNK_SIZE
  vram_layout :=
    if bit_at (byte data 6) 3 then VramLayout.FourScreen
    else if bit_at (byte data 6) 0 then VramLayout.VerticalMirroring
    else VramLayout.HorizontalMirroring
  has_persistent_memory := bit_at (byte data 6) 1
  has_trainer := bit_at (byte data 6) 2
  mapper_number := (byte data 7 &&& 0x0F) ||| (byte data 6 >>> 4)

/-- The number of bytes `from_bytes` needs so that every region slice is in
range: header, optional 512-byte trainer, declared PRG size, declared CHR
size. -/
def required_len (data : List Nat) : Nat :=
  (if bit_at (byte data 6) 2 then HEADER_SIZE + TRAINER_SIZE else HEADER_SIZE)
    + byte data 4 * PRG_ROM_CHUNK_SIZE + byte data 5 * CHR_ROM_CHUNK_SIZE

/-- The container a successful parse produces. -/
def mk_ines (data : List Nat) : Ines :=
  let hd := mk_header data
  let after := if hd.has_trainer then HEADER_SIZE + TRAINER_SIZE else HEADER_SIZE
  { header := hd
    trainer :=
      if hd.has_trainer then some ((data.drop HEADER_SIZE).take TRAINER_SIZE)
      else none
    prg_rom := (data.drop after).take hd.prg_rom_size
    chr_rom :=
      if hd.chr_rom_size > 0 then
        some ((data.drop (after + hd.prg_rom_size)).take hd.chr_rom_size)
      else none }

lemma length_ge_four_of_take_eq_magic {data : List Nat}
    (h : data.take 4 = MAGIC_BYTES) : 4 ≤ data.length := by
  have := congrArg List.length h
  simp [MAGIC_BYTES] at this
  omega

lemma index_eq_byte {data : List Nat} {i : Nat} (h : i < data.length) :
    index data i = some (byte data i) := by
  rw [index, byte, List.getD_eq_getElem?_getD, List.getElem?_eq_getElem h]
  rfl

lemma parse_header_eq_ok {data : List Nat} (hm : data.take 4 = MAGIC_BYTES)
    (h8 : 8 ≤ data.length) : parse_header data = .ok (mk_header data) := by
  have hslice : slice data 0 4 = some (data.take 4) := by
    simp only [slice]
    rw [if_pos ⟨by omega, by omega⟩]
    simp
  rw [parse_header, hslice, hm]
  rw [index_eq_byte (show 4 < data.length by omega),
    index_eq_byte (show 5 < data.length by omega),
    index_eq_byte (show 6 < data.length by omega),
    index_eq_byte (show 7 < data.length by omega)]
  simp [MAGIC_BYTES, mk_header]

lemma byte_eq_of_index {data : List Nat} {i b : Nat}
    (h : index data i = some b) : byte data i = b := by
  simp only [index] at h
  simp [byte, List.getD_eq_getElem?_getD, h]

lemma lt_length_of_index {data : List Nat} {i b : Nat}
    (h : index data i = some b) : i < data.length := by
  simp only [index] at h
  exact (List.getElem?_eq_some_iff.mp h).1

lemma parse_header_ok_inv {data : List Nat} {hd : Header}
    (h : parse_header data = .ok hd) :
    hd = mk_header data ∧ 8 ≤ data.length ∧ data.take 4 = MAGIC_BYTES := by
  rw [parse_header] at h
  split at h
  · exact absurd h (by simp)
  rename_i magic hs
  have hsv : 4 ≤ data.length ∧ magic = data.take 4 := by
    simp only [slice] at hs
    split at hs
    · rename_i hcond
      refine ⟨hcond.2, ?_⟩
      simpa using hs.symm
    · exact absurd hs (by simp)
  split at h
  · exact absurd h (by simp)
  split at h
  · rename_i b4 b5 b6 b7 h4 h5 h6 h7
    by_cases hmm : magic = MAGIC_BYTES
    · simp only [hmm] at h
      rw [if_neg (by simp)] at h
      have e4 := byte_eq_of_index h4
      have e5 := byte_eq_of_index h5
      have e6 := byte_eq_of_index h6
      have e7 := byte_eq_of_index h7
      have h8 : 8 ≤ data.length := by
        have := lt_length_of_index h7
        omega
      have hrec : hd = mk_header data := by
        rw [Outcome.ok.injEq] at h
        rw [← h, mk_header, e4, e5, e6, e7]
      exact ⟨hrec, h8, hsv.2 ▸ hmm⟩
    · simp [hmm] at h
  · by_cases hmm : magic = MAGIC_BYTES <;> simp [hmm] at h

lemma slice_eq {data : List Nat} {a b : Nat} (hab : a ≤ b) (hb : b ≤ data.length) :
    slice data a b = some ((data.drop a).take (b - a)) := by
  rw [slice, if_pos ⟨hab, hb⟩]

lemma required_len_ge {data : List Nat} : 16 ≤ required_len data := by
  rw [required_len]
  split <;> simp [HEADER_SIZE, TRAINER_SIZE] <;> omega

lemma from_bytes_eq_ok {data : List Nat} (hm : data.take 4 = MAGIC_BYTES)
    (hl : required_len data ≤ data.length) : from_bytes data = .ok (mk_ines data) := by
  have h8 : 8 ≤ data.length := by
    have := @required_len_ge data
    omega
  rw [required_len] at hl
  simp only [HEADER_SIZE, TRAINER_SIZE, PRG_ROM_CHUNK_SIZE, CHR_ROM_CHUNK_SIZE] at hl
  have hht : (mk_header data).has_trainer = bit_at (byte data 6) 2 := rfl
  have hprg : (mk_header data).prg_rom_size = byte data 4 * 16384 := rfl
  have hchr : (mk_header data).chr_rom_size = byte data 5 * 8192 := rfl
  simp only [from_bytes, parse_header_eq_ok hm h8, hht, hprg, hchr,
    HEADER_SIZE, TRAINER_SIZE]
  by_cases ht : bit_at (byte data 6) 2 <;> by_cases hc : 0 < byte data 5
  · rw [if_pos ht] at hl
    rw [if_pos ht, slice_eq (by omega) (show 16 + 512 ≤ data.length by omega)]
    simp only []
    rw [slice_eq (by omega)
      (show 16 + 512 + byte data 4 * 16384 ≤ data.length by omega)]
    simp only []
    rw [if_pos (show byte data 5 * 8192 > 0 by omega),
      slice_eq (by omega)
        (show 16 + 512 + byte data 4 * 16384 + byte data 5 * 8192 ≤ data.length by
          omega)]
    simp [mk_ines, hht, hprg, hchr, ht, hc, HEADER_SIZE, TRAINER_SIZE,
      PRG_ROM_CHUNK_SIZE, CHR_ROM_CHUNK_SIZE]
  · rw [if_pos ht] at hl
    rw [if_pos ht, slice_eq (by omega) (show 16 + 512 ≤ data.length by omega)]
    simp only []
    rw [slice_eq (by omega)
      (show 16 + 512 + byte data 4 * 16384 ≤ data.length by omega)]
    simp only []
    rw [if_neg (show ¬ byte data 5 * 8192 > 0 by omega)]
    simp [mk_ines, hht, hprg, hchr, ht, HEADER_SIZE, TRAINER_SIZE,
      PRG_ROM_CHUNK_SIZE, CHR_ROM_CHUNK_SIZE, show byte data 5 = 0 by omega]
  · rw [if_neg ht] at hl
    rw [if_neg ht]
    simp only []
    rw [slice_eq (by omega) (show 16 + byte data 4 * 16384 ≤ data.length by omega)]
    simp only []
    rw [if_pos (show byte data 5 * 8192 > 0 by omega),
      slice_eq (by omega)
        (show 16 + byte data 4 * 16384 + byte data 5 * 8192 ≤ data.length by omega)]
    simp [mk_ines, hht, hprg, hchr, ht, hc, HEADER_SIZE, TRAINER_SIZE,
      PRG_ROM_CHUNK_SIZE, CHR_ROM_CHUNK_SIZE]
  · rw [if_neg ht] at hl
    rw [if_neg ht]
    simp only []
    rw [slice_eq (by omega) (show 16 + byte data 4 * 16384 ≤ data.length by omega)]
    simp only []
    rw [if_neg (show ¬ byte data 5 * 8192 > 0 by omega)]
    simp [mk_ines, hht, hprg, hchr, ht, HEADER_SIZE, TRAINER_SIZE,
      PRG_ROM_CHUNK_SIZE, CHR_ROM_CHUNK_SIZE, show byte data 5 = 0 by omega]

lemma slice_eq_none {data : List Nat} {a b : Nat}
    (h : ¬(a ≤ b ∧ b ≤ data.length)) : slice data a b = none := by
  rw [slice, if_neg h]

lemma parse_header_panic_of_short {data : List Nat}
    (hm : data.take 4 = MAGIC_BYTES) (h : data.length < 8) :
    parse_header data = .panic := by
  have h4 : 4 ≤ data.length := length_ge_four_of_take_eq_magic hm
  rw [parse_header, slice_eq (by omega) (by omega)]
  simp only [List.drop_zero, Nat.sub_zero, hm]
  rw [if_neg (by simp [MAGIC_BYTES])]
  rw [if_neg (by simp)]
  have h7 : index data 7 = none := by
    simp only [index]
    exact List.getElem?_eq_none (by omega)
  rcases h4e : index data 4 with _ | b4 <;>
    rcases h5e : index data 5 with _ | b5 <;>
      rcases h6e : index data 6 with _ | b6 <;>
        rw [h7]

lemma from_bytes_eq_panic {data : List Nat} (hm : data.take 4 = MAGIC_BYTES)
    (hs : data.length < required_len data) : from_bytes data = .panic := by
  by_cases h8 : data.length < 8
  · rw [from_bytes, parse_header_panic_of_short hm h8]
  · have h8' : 8 ≤ data.length := by omega
    rw [required_len] at hs
    simp only [HEADER_SIZE, TRAINER_SIZE, PRG_ROM_CHUNK_SIZE, CHR_ROM_CHUNK_SIZE] at hs
    have hht : (mk_header data).has_trainer = bit_at (byte data 6) 2 := rfl
    have hprg : (mk_header data).prg_rom_size = byte data 4 * 16384 := rfl
    have hchr : (mk_header data).chr_rom_size = byte data 5 * 8192 := rfl
    rw [from_bytes, parse_header_eq_ok hm h8']
    simp only [hht, hprg, hchr, HEADER_SIZE, TRAINER_SIZE]
    by_cases ht : bit_at (byte data 6) 2
    · rw [if_pos ht] at hs
      by_cases htr : 16 + 512 ≤ data.length
      · rw [if_pos ht, slice_eq (by omega) htr]
        simp only []
        by_cases hpf : 16 + 512 + byte data 4 * 16384 ≤ data.length
        · rw [slice_eq (by omega) hpf]
          simp only []
          rw [if_pos (show byte data 5 * 8192 > 0 by omega),
            slice_eq_none (by omega)]
        · rw [slice_eq_none (by omega)]
      · rw [if_pos ht, slice_eq_none (by omega)]
    · rw [if_neg ht] at hs
      rw [if_neg ht]
      simp only []
      by_cases hpf : 16 + byte data 4 * 16384 ≤ data.length
      · rw [slice_eq (by omega) hpf]
        simp only []
        rw [if_pos (show byte data 5 * 8192 > 0 by omega),
          slice_eq_none (by omega)]
      · rw [slice_eq_none (by omega)]

lemma read_exact_eq {data : List Nat} {pos n : Nat} (h : pos + n ≤ data.length) :
    read_exact data pos n = .ok ((data.drop pos).take n, pos + n) := by
  rw [read_exact, if_pos h]

lemma parse_header_take16 (data : List Nat) :
    parse_header (data.take 16) = parse_header data := by
  have hsl : slice (data.take 16) 0 4 = slice data 0 4 := by
    simp only [slice, List.length_take]
    by_cases h : 4 ≤ data.length
    · rw [if_pos ⟨by omega, by omega⟩, if_pos ⟨by omega, by omega⟩]
      simp [List.take_take]
    · rw [if_neg (by omega), if_neg (by omega)]
  have hi : ∀ i, i < 16 → index (data.take 16) i = index data i := by
    intro i hilt
    simp only [index]
    exact List.getElem?_take_of_lt hilt
  rw [parse_header, parse_header, hsl, hi 4 (by omega), hi 5 (by omega),
    hi 6 (by omega), hi 7 (by omega)]

lemma from_reader_eq_ok {data : List Nat} (hm : data.take 4 = MAGIC_BYTES)
    (hl : required_len data ≤ data.length) : from_reader data = .ok (mk_ines data) := by
  have h16 : 16 ≤ data.length := by
    have := @required_len_ge data
    omega
  have h8 : 8 ≤ data.length := by omega
  rw [required_len] at hl
  simp only [HEADER_SIZE, TRAINER_SIZE, PRG_ROM_CHUNK_SIZE, CHR_ROM_CHUNK_SIZE] at hl
  have hht : (mk_header data).has_trainer = bit_at (byte data 6) 2 := rfl
  have hprg : (mk_header data).prg_rom_size = byte data 4 * 16384 := rfl
  have hchr : (mk_header data).chr_rom_size = byte data 5 * 8192 := rfl
  rw [from_reader]
  simp only [HEADER_SIZE, TRAINER_SIZE]
  rw [read_exact_eq (by omega)]
  simp only [List.drop_zero, Nat.zero_add]
  rw [parse_header_take16, parse_header_eq_ok hm h8]
  simp only [hht, hprg, hchr]
  by_cases ht : bit_at (byte data 6) 2 <;> by_cases hc : 0 < byte data 5
  · rw [if_pos ht] at hl
    rw [if_pos ht, read_exact_eq (show 16 + 512 ≤ data.length by omega)]
    simp only []
    rw [read_exact_eq (show 16 + 512 + byte data 4 * 16384 ≤ data.length by omega)]
    simp only []
    rw [if_pos (show byte data 5 * 8192 > 0 by omega),
      read_exact_eq
        (show 16 + 512 + byte data 4 * 16384 + byte data 5 * 8192 ≤ data.length by
          omega)]
    simp [mk_ines, hht, hprg, hchr, ht, hc, HEADER_SIZE, TRAINER_SIZE,
      PRG_ROM_CHUNK_SIZE, CHR_ROM_CHUNK_SIZE]
  · rw [if_pos ht] at hl
    rw [if_pos ht, read_exact_eq (show 16 + 512 ≤ data.length by omega)]
    simp only []
    rw [read_exact_eq (show 16 + 512 + byte data 4 * 16384 ≤ data.length by omega)]
    simp only []
    rw [if_neg (show ¬ byte data 5 * 8192 > 0 by omega)]
    simp [mk_ines, hht, hprg, hchr, ht, HEADER_SIZE, TRAINER_SIZE,
      PRG_ROM_CHUNK_SIZE, CHR_ROM_CHUNK_SIZE, show byte data 5 = 0 by omega]
  · rw [if_neg ht] at hl
    rw [if_neg ht]
    simp only []
    rw [read_exact_eq (show 16 + byte data 4 * 16384 ≤ data.length by omega)]
    simp only []
    rw [if_pos (show byte data 5 * 8192 > 0 by omega),
      read_exact_eq
        (show 16 + byte data 4 * 16384 + byte data 5 * 8192 ≤ data.length by omega)]
    simp [mk_ines, hht, hprg, hchr, ht, hc, HEADER_SIZE, TRAINER_SIZE,
      PRG_ROM_CHUNK_SIZE, CHR_ROM_CHUNK_SIZE]
  · rw [if_neg ht] at hl
    rw [if_neg ht]
    simp only []
    rw [read_exact_eq (show 16 + byte data 4 * 16384 ≤ data.length by omega)]
    simp only []
    rw [if_neg (show ¬ byte data 5 * 8192 > 0 by omega)]
    simp [mk_ines, hht, hprg, hchr, ht, HEADER_SIZE, TRAINER_SIZE,
      PRG_ROM_CHUNK_SIZE, CHR_ROM_CHUNK_SIZE, show byte data 5 = 0 by omega]


lemma from_bytes_ok_parse_header {data : List Nat} {c : Ines}
    (h : from_bytes data = .ok c) : ∃ hd, parse_header data = .ok hd := by
  rw [from_bytes] at h
  cases hp : parse_header data with
  | ok hd => exact ⟨hd, rfl⟩
  | err e => rw [hp] at h; exact absurd h (by simp)
  | panic => rw [hp] at h; exact absurd h (by simp)

/-- Concrete header bytes for the C1 counterexample: byte 6 = 0x10,
byte 7 = 0x02. -/
def c1_input : List Nat :=
  [0x4E, 0x45, 0x53, 0x1A, 0, 0, 0x10, 0x02, 0, 0, 0, 0, 0, 0, 0, 0]

/-- The header the parser actually produces on `c1_input`. -/
def c1_header : Header :=
  ⟨0, 0, VramLayout.HorizontalMirroring, false, false, 0x03⟩

/-- C1 (counterexample): for byte6 = 0x10 and byte7 = 0x02, `parse_header`
returns mapper identifier 0x03, not the claimed 0x21. -/
theorem c1_counterexample :
    parse_header c1_input = Outcome.ok c1_header ∧
      c1_header.mapper_number ≠ 0x21 := by
  constructor
  · decide
  · decide

/-- C1 (amended): for every parse that returns a header, the mapper
identifier is the bitwise OR of the low 4 bits of byte 7 and the high 4 bits
of byte 6, both landing in the low nibble (no shift of the byte-7 nibble):
`(byte7 & 0x0F) | (byte6 >> 4)`.  For byte6 = 0x10, byte7 = 0x02 this gives
0x03. -/
theorem c1_mapper_formula (data : List Nat) (hd : Header)
    (h : parse_header data = Outcome.ok hd) :
    hd.mapper_number = ((byte data 7) &&& 0x0F) ||| ((byte data 6) >>> 4) := by
  obtain ⟨rfl, -, -⟩ := parse_header_ok_inv h
  rfl

/-- Concrete input for the C1 witness: byte 6 = 0xAB, byte 7 = 0xCD. -/
def c1_witness_input : List Nat :=
  [0x4E, 0x45, 0x53, 0x1A, 1, 1, 0xAB, 0xCD, 0, 0, 0, 0, 0, 0, 0, 0]

theorem c1_mapper_formula_witness :
    (mk_header c1_witness_input).mapper_number =
      ((byte c1_witness_input 7) &&& 0x0F) |||
        ((byte c1_witness_input 6) >>> 4) :=
  c1_mapper_formula c1_witness_input (mk_header c1_witness_input) (by decide)


/-- Concrete input for the C2 counterexample: valid signature, 1 declared
PRG chunk (16384 bytes), but only 16 bytes in the buffer. -/
def c2_input : List Nat :=
  [0x4E, 0x45, 0x53, 0x1A, 1, 0, 0, 0, 0, 0, 0, 0, 0, 0, 0, 0]

/-- C2 (counterexample): on a buffer whose first 4 bytes equal the signature
but which is shorter than the computed region offsets require, `from_bytes`
panics (out-of-range slice index); it does not return a typed error. -/
theorem c2_counterexample :
    c2_input.take 4 = MAGIC_BYTES ∧ from_bytes c2_input = Outcome.panic := by
  constructor
  · decide
  · decide

/-- C2 (amended): for every buffer whose first 4 bytes equal the signature,
`from_bytes` panics exactly when the buffer is shorter than the computed
region offsets require (header + optional 512-byte trainer + declared PRG
size + declared CHR size), and it never returns a typed error; truncation is
a panic, not a silent short region. -/
theorem c2_truncation_behaviour (data : List Nat)
    (hm : data.take 4 = MAGIC_BYTES) :
    (from_bytes data = Outcome.panic ↔ data.length < required_len data) ∧
    ∀ e, from_bytes data ≠ Outcome.err e := by
  by_cases h : data.length < required_len data
  · rw [from_bytes_eq_panic hm h]
    simp [h]
  · rw [from_bytes_eq_ok hm (by omega)]
    simp [h]

/-- Concrete input for the C2 witness: a complete 16-byte header declaring
empty PRG and CHR regions. -/
def c2_witness_input : List Nat :=
  [0x4E, 0x45, 0x53, 0x1A, 0, 0, 0, 0, 0, 0, 0, 0, 0, 0, 0, 0]

theorem c2_truncation_behaviour_witness :
    from_bytes c2_witness_input ≠ Outcome.err Error.Io :=
  (c2_truncation_behaviour c2_witness_input (by decide)).2 Error.Io

/-- C4: on at least 16 bytes whose first 4 bytes differ from the signature,
`parse_header` fails with exactly the signature-mismatch error carrying the
4 bytes actually read; when the first 4 bytes equal the signature it never
produces a signature-mismatch error. -/
theorem c4_signature_check (data : List Nat) (h16 : 16 ≤ data.length) :
    (data.take 4 ≠ MAGIC_BYTES →
      parse_header data = Outcome.err (Error.MagicBytesMismatch (data.take 4))) ∧
    (data.take 4 = MAGIC_BYTES →
      ∀ b, parse_header data ≠ Outcome.err (Error.MagicBytesMismatch b)) := by
  constructor
  · intro hne
    rw [parse_header, slice_eq (by omega) (by omega)]
    simp only [List.drop_zero, Nat.sub_zero]
    rw [if_neg (by simp only [List.length_take]; omega)]
    rw [if_pos hne]
  · intro heq b
    rw [parse_header_eq_ok heq (by omega)]
    simp

theorem c4_signature_check_witness :
    parse_header (List.replicate 16 0) =
      Outcome.err (Error.MagicBytesMismatch ((List.replicate 16 0).take 4)) :=
  (c4_signature_check (List.replicate 16 0) (by decide)).1 (by decide)


/-- C5: byte 6 flag decoding — bit 3 forces the four-screen layout regardless
of bit 0, otherwise bit 0 selects vertical over horizontal mirroring; bit 1
is has-persistent-memory; and the parse result contains a 512-byte trainer
region starting at offset 16 exactly when bit 2 is set. -/
theorem c5_flag_decoding (data : List Nat) (c : Ines)
    (h : from_bytes data = Outcome.ok c) :
    (c.header.vram_layout =
      if bit_at (byte data 6) 3 then VramLayout.FourScreen
      else if bit_at (byte data 6) 0 then VramLayout.VerticalMirroring
      else VramLayout.HorizontalMirroring) ∧
    c.header.has_persistent_memory = bit_at (byte data 6) 1 ∧
    (c.trainer =
      if bit_at (byte data 6) 2 then
        some ((data.drop HEADER_SIZE).take TRAINER_SIZE)
      else none) ∧
    (∀ t, c.trainer = some t → t.length = TRAINER_SIZE) := by
  obtain ⟨hd, hp⟩ := from_bytes_ok_parse_header h
  obtain ⟨-, h8, hm⟩ := parse_header_ok_inv hp
  have hnp : ¬ data.length < required_len data := by
    intro hlt
    rw [from_bytes_eq_panic hm hlt] at h
    exact absurd h (by simp)
  rw [from_bytes_eq_ok hm (by omega)] at h
  injection h with h
  subst h
  refine ⟨rfl, rfl, rfl, ?_⟩
  intro t htt
  by_cases hb : bit_at (byte data 6) 2
  · have h528 : HEADER_SIZE + TRAINER_SIZE ≤ data.length := by
      rw [required_len] at hnp
      rw [HEADER_SIZE, TRAINER_SIZE]
      simp only [hb, if_true] at hnp
      simp only [HEADER_SIZE, TRAINER_SIZE] at hnp
      omega
    have : (mk_ines data).trainer =
        some ((data.drop HEADER_SIZE).take TRAINER_SIZE) := by
      simp [mk_ines, mk_header, hb]
    rw [this] at htt
    injection htt with htt
    rw [← htt]
    simp only [List.length_take, List.length_drop]
    rw [HEADER_SIZE, TRAINER_SIZE] at h528 ⊢
    omega
  · have : (mk_ines data).trainer = none := by
      simp [mk_ines, mk_header, hb]
    rw [this] at htt
    exact absurd htt (by simp)

/-- Concrete input for the C5 witness: byte 6 = 0b0000_0110 (trainer +
persistent memory), empty PRG and CHR, followed by a 512-byte trainer. -/
def c5_witness_input : List Nat :=
  [0x4E, 0x45, 0x53, 0x1A, 0, 0, 0x06, 0, 0, 0, 0, 0, 0, 0, 0, 0]
    ++ List.replicate 512 0xAA

set_option maxRecDepth 8192 in
theorem c5_flag_decoding_witness :
    (mk_ines c5_witness_input).header.vram_layout =
        VramLayout.HorizontalMirroring ∧
      (mk_ines c5_witness_input).header.has_persistent_memory = true ∧
      (mk_ines c5_witness_input).trainer = some (List.replicate 512 0xAA) := by
  have happ := c5_flag_decoding c5_witness_input (mk_ines c5_witness_input)
    (from_bytes_eq_ok (by decide) (by decide))
  refine ⟨?_, ?_, ?_⟩
  · rw [happ.1]
    decide
  · rw [happ.2.1]
    decide
  · rw [happ.2.2.1]
    decide


/-- C8: when the buffer-based parse and the stream-based parse of the same
byte content both succeed, they produce identical containers: same header
field values and byte-for-byte identical trainer, PRG and CHR regions, with
the same regions present or absent. -/
theorem c8_entry_points_agree (data : List Nat) (cb cr : Ines)
    (h1 : from_bytes data = Outcome.ok cb)
    (h2 : from_reader data = Outcome.ok cr) : cb = cr := by
  obtain ⟨hd, hp⟩ := from_bytes_ok_parse_header h1
  obtain ⟨-, h8, hm⟩ := parse_header_ok_inv hp
  have hnp : ¬ data.length < required_len data := by
    intro hlt
    rw [from_bytes_eq_panic hm hlt] at h1
    exact absurd h1 (by simp)
  rw [from_bytes_eq_ok hm (by omega)] at h1
  rw [from_reader_eq_ok hm (by omega)] at h2
  injection h1 with h1
  injection h2 with h2
  rw [← h1, ← h2]

/-- Concrete input for the C8 witness: 16-byte header with empty regions. -/
def c8_witness_input : List Nat :=
  [0x4E, 0x45, 0x53, 0x1A, 0, 0, 1, 0, 0, 0, 0, 0, 0, 0, 0, 0]

theorem c8_entry_points_agree_witness :
    mk_ines c8_witness_input = mk_ines c8_witness_input :=
  c8_entry_points_agree c8_witness_input
    (mk_ines c8_witness_input) (mk_ines c8_witness_input)
    (by decide) (by decide)


lemma chunks_exact_fuel_congr :
    ∀ {fuel₁ fuel₂ n : Nat} {data : List Nat},
      data.length ≤ fuel₁ → data.length ≤ fuel₂ →
      chunks_exact_fuel fuel₁ n data = chunks_exact_fuel fuel₂ n data := by
  intro fuel₁
  induction fuel₁ with
  | zero =>
    intro fuel₂ n data h1 h2
    have hnil : data = [] := List.eq_nil_of_length_eq_zero (by omega)
    subst hnil
    cases fuel₂ with
    | zero => rfl
    | succ m =>
      rw [chunks_exact_fuel, chunks_exact_fuel, if_neg (by simp only [List.length_nil]; omega)]
  | succ fuel ih =>
    intro fuel₂ n data h1 h2
    cases fuel₂ with
    | zero =>
      have hnil : data = [] := List.eq_nil_of_length_eq_zero (by omega)
      subst hnil
      rw [chunks_exact_fuel, chunks_exact_fuel, if_neg (by simp only [List.length_nil]; omega)]
    | succ m =>
      rw [chunks_exact_fuel, chunks_exact_fuel]
      by_cases hc : 0 < n ∧ n ≤ data.length
      · rw [if_pos hc, if_pos hc,
          @ih m n (data.drop n) (by simp only [List.length_drop]; omega)
            (by simp only [List.length_drop]; omega)]
      · rw [if_neg hc, if_neg hc]

lemma chunks_exact_unfold (n : Nat) (data : List Nat) :
    chunks_exact n data =
      if 0 < n ∧ n ≤ data.length then
        data.take n :: chunks_exact n (data.drop n)
      else [] := by
  rw [chunks_exact, chunks_exact]
  cases hl : data.length with
  | zero =>
    rw [chunks_exact_fuel, if_neg (show ¬(0 < n ∧ n ≤ 0) by omega)]
  | succ m =>
    rw [chunks_exact_fuel]
    by_cases hc : 0 < n ∧ n ≤ data.length
    · rw [if_pos hc, if_pos (show 0 < n ∧ n ≤ m + 1 by omega),
        @chunks_exact_fuel_congr m (data.drop n).length n (data.drop n)
          (by simp only [List.length_drop]; omega) le_rfl]
    · rw [if_neg hc, if_neg (show ¬(0 < n ∧ n ≤ m + 1) by omega)]

lemma chunks_exact_length (n : Nat) (hn : 0 < n) (data : List Nat) :
    (chunks_exact n data).length = data.length / n := by
  suffices H : ∀ (m : Nat) (l : List Nat), l.length ≤ m →
      (chunks_exact n l).length = l.length / n from H data.length data le_rfl
  intro m
  induction m with
  | zero =>
    intro l h
    rw [chunks_exact_unfold, if_neg (by omega)]
    have : l.length = 0 := by omega
    rw [List.length_nil, this, Nat.zero_div]
  | succ m ih =>
    intro l h
    rw [chunks_exact_unfold]
    split
    · rename_i hc
      rw [List.length_cons,
        ih (l.drop n) (by simp only [List.length_drop]; omega),
        List.length_drop, Nat.div_eq l.length n, if_pos ⟨hn, hc.2⟩]
    · rename_i hc
      rw [List.length_nil, Nat.div_eq l.length n, if_neg hc]

lemma chunks_exact_getElem (n : Nat) (hn : 0 < n) (data : List Nat) (i : Nat) :
    (chunks_exact n data)[i]? =
      if (i + 1) * n ≤ data.length then some ((data.drop (i * n)).take n)
      else none := by
  induction i generalizing data with
  | zero =>
    rw [chunks_exact_unfold]
    split
    · rename_i h
      rw [List.getElem?_cons_zero, if_pos (by omega)]
      simp
    · rename_i h
      rw [if_neg (by push_neg at h; omega)]
      simp
  | succ i ih =>
    rw [chunks_exact_unfold]
    split
    · rename_i h
      rw [List.getElem?_cons_succ, ih (data.drop n)]
      rw [List.length_drop, List.drop_drop]
      have e1 : (i + 1 + 1) * n = (i + 1) * n + n := by ring
      have e2 : n + i * n = (i + 1) * n := by ring
      by_cases hc : (i + 1 + 1) * n ≤ data.length
      · rw [if_pos (by omega), if_pos hc, e2]
      · rw [if_neg (by omega), if_neg hc]
    · rename_i h
      have hlt : data.length < n := by push_neg at h; omega
      have : n ≤ (i + 1 + 1) * n := Nat.le_mul_of_pos_left n (by omega)
      rw [if_neg (by omega)]
      simp


lemma chunks_exact_mem_length {n : Nat} (hn : 0 < n) {data s : List Nat}
    (hs : s ∈ chunks_exact n data) : s.length = n := by
  obtain ⟨i, hi, rfl⟩ := List.getElem_of_mem hs
  have := chunks_exact_getElem n hn data i
  rw [List.getElem?_eq_getElem hi] at this
  split at this
  · rename_i hle
    injection this with this
    rw [this, List.length_take, List.length_drop]
    have : (i + 1) * n = i * n + n := by ring
    omega
  · exact absurd this (by simp)

lemma advance_eq_some {l l' : Lemonade} {k : Nat}
    (h : l.advance k = some l') :
    l'.sprites = l.sprites.drop k ∧ k ≤ l.sprites.length := by
  induction k generalizing l with
  | zero =>
    rw [Lemonade.advance] at h
    injection h with h
    simp [← h]
  | succ k ih =>
    rw [Lemonade.advance] at h
    rcases l with ⟨sp⟩
    cases sp with
    | nil => rw [Lemonade.next] at h; exact absurd h (by simp)
    | cons x rest =>
      rw [Lemonade.next] at h
      simp only [] at h
      obtain ⟨h1, h2⟩ := ih h
      refine ⟨by simpa using h1, by simpa using Nat.succ_le_succ h2⟩

lemma advance_isSome {l : Lemonade} {k : Nat} (h : k ≤ l.sprites.length) :
    (l.advance k).isSome := by
  induction k generalizing l with
  | zero => rw [Lemonade.advance]; rfl
  | succ k ih =>
    rcases l with ⟨sp⟩
    cases sp with
    | nil => simp at h
    | cons x rest =>
      rw [Lemonade.advance, Lemonade.next]
      simp only []
      exact ih (by simpa using h)

lemma nth_yield_eq (l : Lemonade) (i : Nat) :
    l.nth_yield i = (l.sprites[i]?).map Sprite.mk := by
  induction i generalizing l with
  | zero =>
    rcases l with ⟨sp⟩
    cases sp with
    | nil => simp [Lemonade.nth_yield, Lemonade.next]
    | cons x rest => simp [Lemonade.nth_yield, Lemonade.next]
  | succ i ih =>
    rcases l with ⟨sp⟩
    cases sp with
    | nil =>
      rw [Lemonade.nth_yield, Lemonade.next]
      simp only []
      rw [ih]
      simp
    | cons x rest =>
      rw [Lemonade.nth_yield, Lemonade.next]
      simp only []
      rw [ih]
      simp

/-- C6: a byte region of length L yields exactly L / 16 complete 16-byte
tile records: `num_sprites` on a fresh sequence is L / 16, every yielded
record has exactly 16 bytes, L / 16 `next()` calls all succeed, and the
yield after the last complete record is `none` (trailing bytes that do not
fill a record are discarded without error). -/
theorem c6_tile_count (data : List Nat) :
    (Lemonade.new data).num_sprites = data.length / 16 ∧
    (∀ s ∈ (Lemonade.new data).sprites, s.length = 16) ∧
    ((Lemonade.new data).advance (data.length / 16)).isSome ∧
    (Lemonade.new data).nth_yield (data.length / 16) = none := by
  have hlen : (Lemonade.new data).sprites.length = data.length / 16 := by
    rw [Lemonade.new]
    exact chunks_exact_length 16 (by omega) data
  refine ⟨hlen, ?_, advance_isSome (by omega), ?_⟩
  · intro s hs
    exact chunks_exact_mem_length (by omega) hs
  · rw [nth_yield_eq, List.getElem?_eq_none (by omega)]
    rfl

/-- C7: the i-th tile the sequence yields is a view of exactly the 16 bytes
starting at offset i*16 of the region when at least (i+1)*16 bytes are
available, and the sequence yields nothing past the last complete record. -/
theorem c7_nth_tile (data : List Nat) (i : Nat) :
    (Lemonade.new data).nth_yield i =
      if (i + 1) * 16 ≤ data.length then
        some ⟨(data.drop (i * 16)).take 16⟩
      else none := by
  rw [nth_yield_eq]
  simp only [Lemonade.new, SPRITE_SIZE]
  rw [chunks_exact_getElem 16 (by omega) data i]
  split
  · rfl
  · rfl

/-- C10: the count query tracks the cursor: after k successful `next()`
calls on a fresh sequence over a region of length L, `num_sprites` returns
L / 16 - k; each successful `next()` decreases `num_sprites` by exactly
one; and after at least one successful `next()` the count is strictly below
the total record count, so it equals the total only on a fresh sequence. -/
theorem c10_count_tracks_cursor (data : List Nat) (k : Nat) (l' : Lemonade)
    (h : (Lemonade.new data).advance k = some l') :
    l'.num_sprites = data.length / 16 - k ∧
    (∀ (l l2 : Lemonade) (s : Sprite),
      l.next = (some s, l2) → l2.num_sprites + 1 = l.num_sprites) ∧
    (1 ≤ k → l'.num_sprites < (Lemonade.new data).num_sprites) := by
  obtain ⟨hs, hk⟩ := advance_eq_some h
  have hlen : (Lemonade.new data).sprites.length = data.length / 16 := by
    rw [Lemonade.new]
    exact chunks_exact_length 16 (by omega) data
  have hnum : l'.num_sprites = data.length / 16 - k := by
    rw [Lemonade.num_sprites, hs, List.length_drop, hlen]
  refine ⟨hnum, ?_, ?_⟩
  · intro l l2 s hnext
    rcases l with ⟨sp⟩
    cases sp with
    | nil =>
      rw [Lemonade.next] at hnext
      simp only [Prod.mk.injEq] at hnext
      exact absurd hnext.1 (by simp)
    | cons x rest =>
      rw [Lemonade.next] at hnext
      simp only [Prod.mk.injEq] at hnext
      rw [← hnext.2]
      simp [Lemonade.num_sprites]
  · intro hk1
    rw [hnum, Lemonade.num_sprites, hlen]
    rw [hlen] at hk
    omega

theorem c10_count_tracks_cursor_witness :
    (⟨[]⟩ : Lemonade).num_sprites = (List.range 32).length / 16 - 2 :=
  (c10_count_tracks_cursor (List.range 32) 2 ⟨[]⟩ (by decide)).1


lemma to_rgb_eq {tile : List Nat} (h : tile.length = 16) (p : ColourPalette) :
    Sprite.to_rgb ⟨tile⟩ p =
      some (((tile.take 8).zip ((tile.drop 8).take 8)).map
        fun q => decode_row q.1 q.2 p) := by
  have hchunks : chunks_exact 8 tile = [tile.take 8, (tile.drop 8).take 8] := by
    rw [chunks_exact_unfold, if_pos ⟨by omega, by omega⟩,
      chunks_exact_unfold, if_pos ⟨by omega, by simp only [List.length_drop]; omega⟩,
      chunks_exact_unfold,
      if_neg (by simp only [List.length_drop, List.drop_drop]; omega)]
  have hlen : (((tile.take 8).zip ((tile.drop 8).take 8)).map
      fun q => decode_row q.1 q.2 p).length = 8 := by
    simp only [List.length_map, List.length_zip, List.length_take,
      List.length_drop, h]
    omega
  rw [Sprite.to_rgb]
  simp only [SPRITE_WIDTH_HEIGHT, hchunks]
  rw [List.getElem?_cons_zero, List.getElem?_cons_succ, List.getElem?_cons_zero]
  simp only []
  rw [if_pos (by rw [hlen]), List.take_of_length_le (by rw [hlen])]

lemma decode_row_getD (a b : Nat) (p : ColourPalette) (c : Nat) (hc : c < 8) :
    (decode_row a b p).getD c default =
      if bit_at a c && bit_at b c then p.colours.getD 2 default
      else if bit_at b c then p.colours.getD 1 default
      else if bit_at a c then p.colours.getD 0 default
      else p.background := by
  rw [decode_row]
  simp only [SPRITE_WIDTH_HEIGHT]
  rw [List.getD_eq_getElem?_getD, List.getElem?_map, List.getElem?_range hc]
  rfl

/-- C3: for every 16-byte tile (plane A = bytes 0-7, plane B = bytes 8-15),
every palette, every row r < 8 and every bit position c < 8 (bit index c of
the row byte maps to column c, least-significant bit first), the decoded
pixel at row r, column c is foreground colour 3 when bit c is set in both
plane bytes of row r, colour 2 when set only in the plane-B byte, colour 1
when set only in the plane-A byte, and the background colour otherwise. -/
theorem c3_bitplane_decode (tile : List Nat) (p : ColourPalette)
    (grid : List (List Colour)) (hlen : tile.length = 16)
    (hg : Sprite.to_rgb ⟨tile⟩ p = some grid)
    (r c : Nat) (hr : r < 8) (hc : c < 8) :
    (grid.getD r []).getD c default =
      if bit_at (tile.getD r 0) c && bit_at (tile.getD (8 + r) 0) c then
        p.colours.getD 2 default
      else if bit_at (tile.getD (8 + r) 0) c then p.colours.getD 1 default
      else if bit_at (tile.getD r 0) c then p.colours.getD 0 default
      else p.background := by
  rw [to_rgb_eq hlen] at hg
  injection hg with hg
  have hA : (tile.take 8)[r]? = some (tile.getD r 0) := by
    rw [List.getElem?_take_of_lt hr, List.getElem?_eq_getElem (by omega)]
    rw [List.getD_eq_getElem?_getD, List.getElem?_eq_getElem (by omega)]
    rfl
  have hB : ((tile.drop 8).take 8)[r]? = some (tile.getD (8 + r) 0) := by
    rw [List.getElem?_take_of_lt hr, List.getElem?_drop,
      List.getElem?_eq_getElem (by omega)]
    rw [List.getD_eq_getElem?_getD, List.getElem?_eq_getElem (by omega)]
    rfl
  have hzip : ((tile.take 8).zip ((tile.drop 8).take 8))[r]? =
      some (tile.getD r 0, tile.getD (8 + r) 0) := by
    rw [List.getElem?_zip_eq_some]
    exact ⟨hA, hB⟩
  have hrow : grid.getD r [] = decode_row (tile.getD r 0) (tile.getD (8 + r) 0) p := by
    rw [← hg, List.getD_eq_getElem?_getD, List.getElem?_map, hzip]
    rfl
  rw [hrow, decode_row_getD _ _ _ _ hc]

/-- Concrete tile for the C3 witness: plane-A row 0 and plane-B row 0 both
have bit 0 set, so pixel (0,0) decodes to foreground colour 3. -/
def c3_witness_tile : List Nat :=
  [1, 0, 0, 0, 0, 0, 0, 0, 1, 0, 0, 0, 0, 0, 0, 0]

/-- The grid the decoder produces on `c3_witness_tile`. -/
def c3_witness_grid : List (List Colour) :=
  (Sprite.to_rgb ⟨c3_witness_tile⟩ CLASSIC_MARIO).getD []

theorem c3_bitplane_decode_witness :
    (c3_witness_grid.getD 0 []).getD 0 default = Colour.mk 126 153 83 := by
  have happ := c3_bitplane_decode c3_witness_tile CLASSIC_MARIO c3_witness_grid
    (by decide) (by decide) 0 0 (by decide) (by decide)
  rw [happ]
  decide

/-- C9: on every tile whose raw buffer has exactly 16 bytes and every
palette, `Sprite::to_rgb` is total: it produces a full 8-by-8 colour grid
and none of its internal unwraps can fail. -/
theorem c9_to_rgb_total (tile : List Nat) (p : ColourPalette)
    (h : tile.length = 16) :
    ∃ grid, Sprite.to_rgb ⟨tile⟩ p = some grid ∧ grid.length = 8 ∧
      ∀ row ∈ grid, row.length = 8 := by
  refine ⟨_, to_rgb_eq h p, ?_, ?_⟩
  · simp only [List.length_map, List.length_zip, List.length_take,
      List.length_drop, h]
    decide
  · intro row hrow
    simp only [List.mem_map] at hrow
    obtain ⟨q, -, rfl⟩ := hrow
    simp [decode_row, SPRITE_WIDTH_HEIGHT]

theorem c9_to_rgb_total_witness :
    (Sprite.to_rgb ⟨List.replicate 16 0⟩ CLASSIC_MARIO).isSome = true := by
  obtain ⟨g, hgg, -, -⟩ :=
    c9_to_rgb_total (List.replicate 16 0) CLASSIC_MARIO (by decide)
  rw [hgg]
  rfl

end NesUtils
